import Mathlib

/-!
Shallow embedding of the chaverocoin fungible-token contract
(src/ft/src/lib.rs).  The contract file itself only wires the
near-contract-standards library macros onto the `Contract` type
(lines 88 and 89 of lib.rs); the library code generated by those macros
is not part of this repository, so the ledger, transfer and storage
operations are modelled from the specification, as marked on each
definition.  Definitions taken directly from src/ft/src/lib.rs cite
their line numbers.
-/

namespace ChaveroCoin

/-- Account identifiers are opaque strings canonicalized by the host. -/
abbrev AccountId := String

/-- Maximum representable balance: balances are limited by U128 (lib.rs line 4). -/
def U128_MAX : Nat := 2 ^ 128 - 1

/-- Modelled from the spec: the expected metadata spec-version string.  The
constant is imported by lib.rs line 19 from the library, which is absent from
the repository; the claims do not depend on its concrete value. -/
def FT_METADATA_SPEC : String := "ft-1.0.0"

/-- Metadata record, fields as used by lib.rs lines 48-56. -/
structure FungibleTokenMetadata where
  spec : String
  name : String
  symbol : String
  icon : Option String
  reference : Option String
  reference_hash : Option (List Nat)
  decimals : Nat
  deriving DecidableEq

/-- Modelled from the spec: metadata validation, called on lib.rs line 69.
Missing code: FungibleTokenMetadata::assert_valid from the library.  Spec 4.5:
validates internal consistency (non-empty name and symbol, spec version matches
the expected version, decimals within a sane range). -/
def FungibleTokenMetadata.assert_valid (md : FungibleTokenMetadata) : Bool :=
  (md.spec == FT_METADATA_SPEC) && (md.name != "") && (md.symbol != "")
    && Nat.ble md.decimals 38

/-- Observable notifications emitted by the contract callbacks
(lib.rs lines 79-85). -/
inductive Event where
  | accountClosed (account_id : AccountId) (balance : Nat)
  | tokensBurned (account_id : AccountId) (amount : Nat)
  deriving DecidableEq

/-- Modelled from the spec: the ephemeral PendingTransfer record created by the
initiate phase of a call-notify transfer and consumed by the resolve phase
(spec section 3). -/
structure PendingTransfer where
  sender : AccountId
  receiver : AccountId
  amount : Nat
  msg : String
  deriving DecidableEq

/-- Modelled from the spec: the outcome of the external call dispatched by a
call-notify transfer, as observed by the resolve phase (spec 4.4): either a
host-level execution failure, or success with a declared used amount. -/
inductive CallOutcome where
  | failed
  | succeeded (used : Nat)
  deriving DecidableEq

/-- Error kinds, exactly the list of spec section 7. -/
inductive Err where
  | NotInitialized
  | AlreadyInitialized
  | InvalidAmount
  | InvalidMetadata
  | Overflow
  | InsufficientBalance
  | AccountNotRegistered
  | AccountHasBalance
  | InsufficientDeposit
  | ExcessWithdrawal
  deriving DecidableEq

/-- Contract state: the balance table (whose key domain is the registered set),
the total-supply counter, the metadata record, the in-flight PendingTransfer
records and the emitted notifications (spec section 6, persisted state
layout). -/
structure State where
  accounts : List (AccountId × Nat)
  total_supply : Nat
  metadata : FungibleTokenMetadata
  pending : List PendingTransfer
  events : List Event
  deriving DecidableEq

/-- Balance-table lookup: first entry with the given key. -/
def getBal : List (AccountId × Nat) → AccountId → Option Nat
  | [], _ => none
  | e :: t, a => if e.1 = a then some e.2 else getBal t a

/-- Balance-table update in place (first entry with the given key). -/
def updBal : List (AccountId × Nat) → AccountId → Nat → List (AccountId × Nat)
  | [], _, _ => []
  | e :: t, a, n => if e.1 = a then (e.1, n) :: t else e :: updBal t a n

/-- Balance-table removal of every entry with the given key. -/
def eraseKey : List (AccountId × Nat) → AccountId → List (AccountId × Nat)
  | [], _ => []
  | e :: t, a => if e.1 = a then eraseKey t a else e :: eraseKey t a

/-- Sum of all balances held in the table. -/
def sumBal : List (AccountId × Nat) → Nat
  | [] => 0
  | e :: t => e.2 + sumBal t

/-- Key domain of the balance table, i.e. the registered set. -/
def keysOf (l : List (AccountId × Nat)) : List AccountId := l.map Prod.fst

/-- Modelled from the spec: Ledger.balance_of returns 0 for unregistered
accounts and never fails (spec 4.1). -/
def balance_of (st : State) (a : AccountId) : Nat := (getBal st.accounts a).getD 0

/-- Public balance query wired by the core macro (lib.rs line 88). -/
def ft_balance_of (st : State) (a : AccountId) : Nat := balance_of st a

/-- Public total-supply query wired by the core macro (lib.rs line 88). -/
def ft_total_supply (st : State) : Nat := st.total_supply

/-- Metadata query, lib.rs lines 93-95: returns the stored record. -/
def ft_metadata (st : State) : FungibleTokenMetadata := st.metadata

/-- Modelled from the spec: Ledger.credit requires the account registered and
fails with Overflow if the balance would exceed the 128-bit maximum or exceed
the total_supply invariant bookkeeping, i.e. if the sum of all registered
balances would come to exceed the total supply (spec 4.1 with the conservation
invariant of spec 3); otherwise increases the balance. -/
def credit (st : State) (a : AccountId) (n : Nat) : Except Err State :=
  match getBal st.accounts a with
  | none => .error .AccountNotRegistered
  | some b =>
    if U128_MAX < b + n ∨ st.total_supply < sumBal st.accounts + n then
      .error .Overflow
    else .ok { st with accounts := updBal st.accounts a (b + n) }

/-- Modelled from the spec: Ledger.debit requires the account registered and
fails with InsufficientBalance if the amount exceeds the balance; otherwise
decreases the balance (spec 4.1). -/
def debit (st : State) (a : AccountId) (n : Nat) : Except Err State :=
  match getBal st.accounts a with
  | none => .error .AccountNotRegistered
  | some b =>
    if b < n then .error .InsufficientBalance
    else .ok { st with accounts := updBal st.accounts a (b - n) }

/-- Modelled from the spec: Ledger.mint increases both the balance and the
total supply atomically; used exactly once, at construction (spec 4.1). -/
def mint (st : State) (a : AccountId) (n : Nat) : Except Err State :=
  match getBal st.accounts a with
  | none => .error .AccountNotRegistered
  | some b =>
    if U128_MAX < b + n ∨ U128_MAX < st.total_supply + n then .error .Overflow
    else .ok { st with accounts := updBal st.accounts a (b + n),
                       total_supply := st.total_supply + n }

/-- Contract::on_account_closed, lib.rs lines 79-81: logs the closed account
and its final balance; modelled as appending an observable event. -/
def Contract.on_account_closed (st : State) (account_id : AccountId) (balance : Nat) :
    State :=
  { st with events := st.events ++ [Event.accountClosed account_id balance] }

/-- Contract::on_tokens_burned, lib.rs lines 83-85: logs a burn; modelled as
appending an observable event.  The callback is handed to the core macro on
lib.rs line 88; the spec-modelled resolve phase below has no burn path, so
this function has no call site in the model (see claim C10). -/
def Contract.on_tokens_burned (st : State) (account_id : AccountId) (amount : Nat) :
    State :=
  { st with events := st.events ++ [Event.tokensBurned account_id amount] }

/-- Contract::new, lib.rs lines 62-77: validate the metadata, create the empty
token state, register the owner and deposit the whole total supply to it.  The
bodies of internal_register_account and internal_deposit live in the absent
library; per spec 4.1 the deposit at construction is the single mint. -/
def Contract.new (owner_id : AccountId) (total_supply : Nat)
    (metadata : FungibleTokenMetadata) : Except Err State :=
  if metadata.assert_valid then
    mint { accounts := [(owner_id, 0)], total_supply := 0, metadata := metadata,
           pending := [], events := [] } owner_id total_supply
  else .error .InvalidMetadata

/-- Modelled from the spec: the simple transfer of spec 4.4, generated in the
source by the core macro (lib.rs line 88).  Preconditions in the spec order:
amount positive (else InvalidAmount), receiver registered (else
AccountNotRegistered), sender balance sufficient (else InsufficientBalance);
on success debit the sender then credit the receiver as one atomic unit. -/
def ft_transfer (st : State) (sender receiver : AccountId) (amount : Nat) :
    Except Err State :=
  if amount = 0 then .error .InvalidAmount
  else if (getBal st.accounts receiver).isNone then .error .AccountNotRegistered
  else if balance_of st sender < amount then .error .InsufficientBalance
  else
    match debit st sender amount with
    | .error e => .error e
    | .ok st1 => credit st1 receiver amount

/-- Modelled from the spec: the initiate phase of a call-notify transfer
(spec 4.4), generated in the source by the core macro (lib.rs line 88): same
preconditions as the simple transfer; debit sender, credit receiver and
persist a PendingTransfer record before dispatching the external call. -/
def ft_transfer_call (st : State) (sender receiver : AccountId) (amount : Nat)
    (msg : String) : Except Err State :=
  if amount = 0 then .error .InvalidAmount
  else if (getBal st.accounts receiver).isNone then .error .AccountNotRegistered
  else if balance_of st sender < amount then .error .InsufficientBalance
  else
    match debit st sender amount with
    | .error e => .error e
    | .ok st1 =>
      match credit st1 receiver amount with
      | .error e => .error e
      | .ok st2 =>
        .ok { st2 with pending := st2.pending ++ [⟨sender, receiver, amount, msg⟩] }

/-- Modelled from the spec: the amount owed back to the sender by the resolve
phase (spec 4.4).  On outright failure of the external call the whole amount
is refunded; on success the declared used amount is clamped to the range from
0 to amount, values outside the range being treated as amount, and the unused
remainder is owed back. -/
def refundOf (amount : Nat) (outcome : CallOutcome) : Nat :=
  match outcome with
  | .failed => amount
  | .succeeded u => amount - min u amount

/-- Modelled from the spec: moving the owed refund back to the sender by
reversing the initiate-phase credit/debit (spec 4.4).  If the receiver is no
longer registered its side is simply discarded and the sender alone is
credited; every ledger step is checked, so a failing step aborts the enclosing
resolve invocation with no partial mutation (spec 4.1 and section 7). -/
def resolveRefund (st : State) (sender receiver : AccountId) (refund : Nat) :
    Except Err State :=
  if refund = 0 then .ok st
  else
    match (if (getBal st.accounts receiver).isSome
           then debit st receiver refund else .ok st) with
    | .error e => .error e
    | .ok st1 => credit st1 sender refund

/-- Modelled from the spec: the resolve phase of a call-notify transfer
(spec 4.4), generated in the source by the core macro (lib.rs line 88).  It
consumes and deletes the PendingTransfer record; a second resolution for the
same record is a no-op (idempotent). -/
def ft_resolve_transfer (st : State) (p : PendingTransfer) (outcome : CallOutcome) :
    Except Err State :=
  if p ∈ st.pending then
    match resolveRefund st p.sender p.receiver (refundOf p.amount outcome) with
    | .error e => .error e
    | .ok st1 => .ok { st1 with pending := st1.pending.erase p }
  else .ok st

/-- Modelled from the spec: the ledger effect of storage_deposit, generated in
the source by the storage macro (lib.rs line 89).  Registering an account adds
it to the registered set with balance 0; a deposit for an account already
registered is a top-up with no ledger change (spec 4.3).  The attached-payment
accounting is kept by the host outside the ledger and does not change any
balance, so it is not part of the ledger state. -/
def storage_deposit (st : State) (a : AccountId) : Except Err State :=
  match getBal st.accounts a with
  | some _ => .ok st
  | none => .ok { st with accounts := (a, 0) :: st.accounts }

/-- Modelled from the spec: storage_unregister, generated in the source by the
storage macro (lib.rs line 89) with the on_account_closed callback of lib.rs
lines 79-81.  Zero balance: remove the account.  Positive balance without
force: fails with AccountHasBalance.  Positive balance with force: burn the
remaining balance, emit the account-closed notification with the final
balance, then remove the account (spec 4.3). -/
def storage_unregister (st : State) (a : AccountId) (force : Bool) :
    Except Err State :=
  match getBal st.accounts a with
  | none => .error .AccountNotRegistered
  | some b =>
    if b = 0 then .ok { st with accounts := eraseKey st.accounts a }
    else if force = false then .error .AccountHasBalance
    else
      .ok (Contract.on_account_closed
        { st with accounts := eraseKey st.accounts a,
                  total_supply := st.total_supply - b } a b)

/-- Storage-balance bounds record (spec 4.3 and section 6). -/
structure StorageBalanceBounds where
  min : Nat
  max : Option Nat
  deriving DecidableEq

/-- Modelled from the spec: StorageAccountant.cost_of converts a byte count to
a payment with a fixed price per byte (spec 4.2). -/
def cost_of (bytes price_per_byte : Nat) : Nat := bytes * price_per_byte

/-- Modelled from the spec: storage_balance_bounds, generated in the source by
the storage macro (lib.rs line 89).  The minimum is fixed at the byte cost of
one ledger entry and the maximum is unbounded in the default configuration
(spec 4.3). -/
def storage_balance_bounds (entry_bytes price_per_byte : Nat) :
    StorageBalanceBounds :=
  { min := cost_of entry_bytes price_per_byte, max := none }

/-- One public ledger-touching operation, for the reachability relation of the
conservation invariant: transfers, call-notify transfers and their
resolutions, storage registration and unregistration. -/
inductive Op where
  | transfer (sender receiver : AccountId) (amount : Nat)
  | transferCall (sender receiver : AccountId) (amount : Nat) (msg : String)
  | resolveCall (p : PendingTransfer) (outcome : CallOutcome)
  | register (account : AccountId)
  | unregister (account : AccountId) (force : Bool)

/-- Interpretation of one public operation on the state. -/
def applyOp (st : State) : Op → Except Err State
  | .transfer s r n => ft_transfer st s r n
  | .transferCall s r n m => ft_transfer_call st s r n m
  | .resolveCall p o => ft_resolve_transfer st p o
  | .register a => storage_deposit st a
  | .unregister a f => storage_unregister st a f

/-- States reachable from a successful initialization by any sequence of
successful public operations. -/
inductive Reachable : State → Prop
  | init (owner : AccountId) (supply : Nat) (md : FungibleTokenMetadata)
      (st : State) : Contract.new owner supply md = .ok st → Reachable st
  | step (st : State) (op : Op) (st' : State) :
      Reachable st → applyOp st op = .ok st' → Reachable st'

/-- Well-formedness carried along reachable states: the registered set has no
duplicate keys and the balances sum to the total supply. -/
def WF (st : State) : Prop :=
  (keysOf st.accounts).Nodup ∧ sumBal st.accounts = st.total_supply

/-- Concrete valid metadata record used by the witnesses, with the name,
symbol and decimals of lib.rs lines 48-56. -/
def sampleMetadata : FungibleTokenMetadata :=
  { spec := FT_METADATA_SPEC, name := "ChaveroCoin Token", symbol := "ChC",
    icon := none, reference := none, reference_hash := none, decimals := 24 }

/-- Concrete state produced by initializing with owner o and supply 500. -/
def initState : State :=
  { accounts := [("o", 500)], total_supply := 500, metadata := sampleMetadata,
    pending := [], events := [] }

/-- Concrete post-initiate state of the call-notify scenario of spec section 8:
supply 1000000, sender s debited to 999700, registered receiver r credited to
300, PendingTransfer in flight. -/
def preResolveState : State :=
  { accounts := [("r", 300), ("s", 999700)], total_supply := 1000000,
    metadata := sampleMetadata, pending := [⟨"s", "r", 300, "m"⟩], events := [] }

/-- Setup chain of the call-notify scenario: initialize with the sender owning
the whole supply, register the receiver, initiate a call-notify transfer
of 300. -/
def setupC3 : Except Err State :=
  ((Contract.new "s" 1000000 sampleMetadata).bind
    (fun st => storage_deposit st "r")).bind
    (fun st => ft_transfer_call st "s" "r" 300 "m")

/-- Setup chain for the counterexample: after the initiate phase the receiver
sends the 300 provisional tokens back to the sender and unregisters, so at
resolve time the receiver is no longer registered while the PendingTransfer
is still in flight. -/
def setupCex : Except Err State :=
  (setupC3.bind (fun st => ft_transfer st "r" "s" 300)).bind
    (fun st => storage_unregister st "r" false)

/-- Concrete state reached by setupCex: receiver unregistered, sender back at
the full supply, the PendingTransfer still pending. -/
def cexState : State :=
  { accounts := [("s", 1000000)], total_supply := 1000000,
    metadata := sampleMetadata, pending := [⟨"s", "r", 300, "m"⟩], events := [] }

/-- Concrete pre-transfer state for the simple-transfer witness. -/
def c2State : State :=
  { accounts := [("a", 10), ("b", 5)], total_supply := 15,
    metadata := sampleMetadata, pending := [], events := [] }

/-- Concrete post-transfer state for the simple-transfer witness. -/
def c2StateAfter : State :=
  { accounts := [("a", 7), ("b", 8)], total_supply := 15,
    metadata := sampleMetadata, pending := [], events := [] }

/-- Setup chain of the rollback scenario: initialize with the sender owning
the whole supply and register the receiver. -/
def c4Setup : Except Err State :=
  (Contract.new "s" 1000000 sampleMetadata).bind (fun st => storage_deposit st "r")

/-- Concrete state reached by c4Setup. -/
def c4State : State :=
  { accounts := [("r", 0), ("s", 1000000)], total_supply := 1000000,
    metadata := sampleMetadata, pending := [], events := [] }

deriving instance DecidableEq for Except

/-! Balance-table lemmas. -/

theorem getBal_updBal_self {l : List (AccountId × Nat)} {a : AccountId} {b : Nat}
    (n : Nat) (h : getBal l a = some b) : getBal (updBal l a n) a = some n := by
  induction l with
  | nil => simp [getBal] at h
  | cons e t ih =>
    obtain ⟨k, v⟩ := e
    by_cases hk : k = a
    · subst hk
      simp [getBal, updBal]
    · simp only [getBal, hk, if_false] at h
      simp [getBal, updBal, hk, ih h]

theorem getBal_updBal_ne {l : List (AccountId × Nat)} {a r : AccountId}
    (n : Nat) (h : r ≠ a) : getBal (updBal l a n) r = getBal l r := by
  induction l with
  | nil => simp [getBal, updBal]
  | cons e t ih =>
    obtain ⟨k, v⟩ := e
    by_cases hk : k = a
    · subst hk
      simp [getBal, updBal, if_neg (Ne.symm h)]
    · by_cases he : k = r
      · simp [getBal, updBal, hk, he, h]
      · simp [getBal, updBal, hk, he, ih]

theorem sumBal_updBal {l : List (AccountId × Nat)} {a : AccountId} {b : Nat}
    (n : Nat) (h : getBal l a = some b) :
    sumBal (updBal l a n) + b = sumBal l + n := by
  induction l with
  | nil => simp [getBal] at h
  | cons e t ih =>
    by_cases hk : e.1 = a
    · simp only [getBal, hk, if_true, Option.some.injEq] at h
      simp only [updBal, hk, if_true, sumBal]
      omega
    · simp only [getBal, hk, if_false] at h
      have := ih h
      simp only [updBal, hk, if_false, sumBal]
      omega

theorem getBal_le_sumBal {l : List (AccountId × Nat)} {a : AccountId} {b : Nat}
    (h : getBal l a = some b) : b ≤ sumBal l := by
  induction l with
  | nil => simp [getBal] at h
  | cons e t ih =>
    by_cases hk : e.1 = a
    · simp only [getBal, hk, if_true, Option.some.injEq] at h
      simp only [sumBal]
      omega
    · simp only [getBal, hk, if_false] at h
      have := ih h
      simp only [sumBal]
      omega

theorem updBal_same {l : List (AccountId × Nat)} {a : AccountId} {b : Nat}
    (h : getBal l a = some b) : updBal l a b = l := by
  induction l with
  | nil => simp [updBal]
  | cons e t ih =>
    obtain ⟨k, v⟩ := e
    by_cases hk : k = a
    · subst hk
      simp [getBal] at h
      simp [updBal, h]
    · simp only [getBal, hk, if_false] at h
      simp [updBal, hk, ih h]

theorem getBal_eraseKey_self (l : List (AccountId × Nat)) (a : AccountId) :
    getBal (eraseKey l a) a = none := by
  induction l with
  | nil => simp [eraseKey, getBal]
  | cons e t ih =>
    by_cases hk : e.1 = a
    · simp [eraseKey, hk, ih]
    · simp [eraseKey, getBal, hk, ih]

theorem keysOf_updBal (l : List (AccountId × Nat)) (a : AccountId) (n : Nat) :
    keysOf (updBal l a n) = keysOf l := by
  induction l with
  | nil => simp [updBal]
  | cons e t ih =>
    by_cases hk : e.1 = a
    · simp [updBal, hk, keysOf]
    · simp only [updBal, hk, if_false, keysOf, List.map_cons]
      simpa [keysOf] using ih

theorem getBal_none_not_mem {l : List (AccountId × Nat)} {a : AccountId}
    (h : getBal l a = none) : a ∉ keysOf l := by
  induction l with
  | nil => simp [keysOf]
  | cons e t ih =>
    by_cases hk : e.1 = a
    · simp [getBal, hk] at h
    · simp only [getBal, hk, if_false] at h
      simp [keysOf, List.mem_cons]
      exact ⟨fun he => hk he.symm, by simpa [keysOf] using ih h⟩

theorem mem_keysOf_eraseKey {l : List (AccountId × Nat)} {a x : AccountId}
    (h : x ∈ keysOf (eraseKey l a)) : x ∈ keysOf l := by
  induction l with
  | nil => simpa [eraseKey] using h
  | cons e t ih =>
    by_cases hk : e.1 = a
    · simp only [eraseKey, hk, if_true] at h
      simp [keysOf, List.mem_cons]
      right
      simpa [keysOf] using ih h
    · simp only [eraseKey, hk, if_false, keysOf, List.map_cons, List.mem_cons] at h
      rcases h with h | h
      · simp [keysOf, h]
      · simp only [keysOf, List.map_cons, List.mem_cons]
        right
        simpa [keysOf] using ih (by simpa [keysOf] using h)

theorem nodup_keysOf_eraseKey {l : List (AccountId × Nat)} {a : AccountId}
    (h : (keysOf l).Nodup) : (keysOf (eraseKey l a)).Nodup := by
  induction l with
  | nil => simp [eraseKey, keysOf]
  | cons e t ih =>
    simp only [keysOf, List.map_cons, List.nodup_cons] at h
    by_cases hk : e.1 = a
    · simp only [eraseKey, hk, if_true]
      exact ih h.2
    · simp only [eraseKey, hk, if_false, keysOf, List.map_cons, List.nodup_cons]
      refine ⟨fun hm => h.1 ?_, ih h.2⟩
      exact mem_keysOf_eraseKey (by simpa [keysOf] using hm)

theorem eraseKey_not_mem {l : List (AccountId × Nat)} {a : AccountId}
    (h : getBal l a = none) : eraseKey l a = l := by
  induction l with
  | nil => simp [eraseKey]
  | cons e t ih =>
    by_cases hk : e.1 = a
    · simp [getBal, hk] at h
    · simp only [getBal, hk, if_false] at h
      simp [eraseKey, hk, ih h]

theorem not_mem_getBal_none {l : List (AccountId × Nat)} {a : AccountId}
    (h : a ∉ keysOf l) : getBal l a = none := by
  induction l with
  | nil => simp [getBal]
  | cons e t ih =>
    simp only [keysOf, List.map_cons, List.mem_cons, not_or] at h
    have hk : e.1 ≠ a := fun he => h.1 he.symm
    simp only [getBal, hk, if_false]
    exact ih (by simpa [keysOf] using h.2)

theorem sumBal_eraseKey {l : List (AccountId × Nat)} {a : AccountId} {b : Nat}
    (hnd : (keysOf l).Nodup) (h : getBal l a = some b) :
    sumBal (eraseKey l a) + b = sumBal l := by
  induction l with
  | nil => simp [getBal] at h
  | cons e t ih =>
    simp only [keysOf, List.map_cons, List.nodup_cons] at hnd
    by_cases hk : e.1 = a
    · simp only [getBal, hk, if_true, Option.some.injEq] at h
      have ht : getBal t a = none :=
        not_mem_getBal_none (by simpa [keysOf, hk] using hnd.1)
      simp only [eraseKey, hk, if_true, eraseKey_not_mem ht, sumBal]
      omega
    · simp only [getBal, hk, if_false] at h
      have := ih hnd.2 h
      simp only [eraseKey, hk, if_false, sumBal]
      omega

/-! Characterization lemmas for the checked ledger primitives. -/

theorem debit_ok {st : State} {a : AccountId} {n : Nat} {st' : State}
    (h : debit st a n = .ok st') :
    ∃ b, getBal st.accounts a = some b ∧ n ≤ b ∧
      st'.accounts = updBal st.accounts a (b - n) ∧
      st'.total_supply = st.total_supply ∧ st'.pending = st.pending ∧
      st'.events = st.events := by
  unfold debit at h
  split at h
  · exact Except.noConfusion h
  · rename_i b hg
    split at h
    · exact Except.noConfusion h
    · rename_i hb
      injection h with h
      subst h
      exact ⟨b, hg, by omega, rfl, rfl, rfl, rfl⟩

theorem credit_ok {st : State} {a : AccountId} {n : Nat} {st' : State}
    (h : credit st a n = .ok st') :
    ∃ b, getBal st.accounts a = some b ∧ b + n ≤ U128_MAX ∧
      sumBal st.accounts + n ≤ st.total_supply ∧
      st'.accounts = updBal st.accounts a (b + n) ∧
      st'.total_supply = st.total_supply ∧ st'.pending = st.pending ∧
      st'.events = st.events := by
  unfold credit at h
  split at h
  · exact Except.noConfusion h
  · rename_i b hg
    split at h
    · exact Except.noConfusion h
    · rename_i hcond
      push_neg at hcond
      injection h with h
      subst h
      exact ⟨b, hg, by omega, by omega, rfl, rfl, rfl, rfl⟩

theorem mint_ok {st : State} {a : AccountId} {n : Nat} {st' : State}
    (h : mint st a n = .ok st') :
    ∃ b, getBal st.accounts a = some b ∧ b + n ≤ U128_MAX ∧
      st.total_supply + n ≤ U128_MAX ∧
      st'.accounts = updBal st.accounts a (b + n) ∧
      st'.total_supply = st.total_supply + n ∧ st'.pending = st.pending ∧
      st'.events = st.events := by
  unfold mint at h
  split at h
  · exact Except.noConfusion h
  · rename_i b hg
    split at h
    · exact Except.noConfusion h
    · rename_i hcond
      push_neg at hcond
      injection h with h
      subst h
      exact ⟨b, hg, by omega, by omega, rfl, rfl, rfl, rfl⟩

theorem debit_eq {st : State} {a : AccountId} {n b : Nat}
    (h : getBal st.accounts a = some b) (hn : n ≤ b) :
    debit st a n = .ok { st with accounts := updBal st.accounts a (b - n) } := by
  unfold debit
  split
  · rename_i hg
    rw [h] at hg
    exact Option.noConfusion hg
  · rename_i b' hg
    rw [h] at hg
    injection hg with hg
    subst hg
    rw [if_neg (by omega)]

theorem credit_eq {st : State} {a : AccountId} {n b : Nat}
    (h : getBal st.accounts a = some b) (h1 : b + n ≤ U128_MAX)
    (h2 : sumBal st.accounts + n ≤ st.total_supply) :
    credit st a n = .ok { st with accounts := updBal st.accounts a (b + n) } := by
  unfold credit
  split
  · rename_i hg
    rw [h] at hg
    exact Option.noConfusion hg
  · rename_i b' hg
    rw [h] at hg
    injection hg with hg
    subst hg
    rw [if_neg (by omega)]

/-! Preservation of well-formedness by every public operation. -/

theorem wf_ft_transfer {st : State} {s r : AccountId} {n : Nat} {st' : State}
    (h : ft_transfer st s r n = .ok st') (hwf : WF st) : WF st' := by
  unfold ft_transfer at h
  split at h
  · exact Except.noConfusion h
  · split at h
    · exact Except.noConfusion h
    · split at h
      · exact Except.noConfusion h
      · cases hd : debit st s n with
        | error e =>
          simp only [hd] at h
          exact Except.noConfusion h
        | ok st1 =>
          simp only [hd] at h
          obtain ⟨b, hgb, hnb, hacc1, hsup1, hp1, he1⟩ := debit_ok hd
          obtain ⟨b2, hgb2, hb2, hs2, hacc2, hsup2, hp2, he2⟩ := credit_ok h
          obtain ⟨hnd, hsum⟩ := hwf
          refine ⟨?_, ?_⟩
          · rw [hacc2, keysOf_updBal, hacc1, keysOf_updBal]
            exact hnd
          · have e1 := sumBal_updBal (b - n) hgb
            have e2 := sumBal_updBal (b2 + n) hgb2
            rw [← hacc1] at e1
            rw [← hacc2] at e2
            omega

theorem wf_ft_transfer_call {st : State} {s r : AccountId} {n : Nat} {m : String}
    {st' : State} (h : ft_transfer_call st s r n m = .ok st') (hwf : WF st) :
    WF st' := by
  unfold ft_transfer_call at h
  split at h
  · exact Except.noConfusion h
  · split at h
    · exact Except.noConfusion h
    · split at h
      · exact Except.noConfusion h
      · cases hd : debit st s n with
        | error e =>
          simp only [hd] at h
          exact Except.noConfusion h
        | ok st1 =>
          simp only [hd] at h
          cases hc : credit st1 r n with
          | error e =>
            simp only [hc] at h
            exact Except.noConfusion h
          | ok st2 =>
            simp only [hc] at h
            injection h with h
            subst h
            obtain ⟨b, hgb, hnb, hacc1, hsup1, hp1, he1⟩ := debit_ok hd
            obtain ⟨b2, hgb2, hb2, hs2, hacc2, hsup2, hp2, he2⟩ := credit_ok hc
            obtain ⟨hnd, hsum⟩ := hwf
            refine ⟨?_, ?_⟩
            · show (keysOf st2.accounts).Nodup
              rw [hacc2, keysOf_updBal, hacc1, keysOf_updBal]
              exact hnd
            · show sumBal st2.accounts = st2.total_supply
              have e1 := sumBal_updBal (b - n) hgb
              have e2 := sumBal_updBal (b2 + n) hgb2
              rw [← hacc1] at e1
              rw [← hacc2] at e2
              omega

theorem wf_resolveRefund {st : State} {s r : AccountId} {k : Nat} {st1 : State}
    (h : resolveRefund st s r k = .ok st1) (hwf : WF st) : WF st1 := by
  unfold resolveRefund at h
  split at h
  · injection h with h
    subst h
    exact hwf
  · rename_i hk
    cases hfirst : (if (getBal st.accounts r).isSome
                    then debit st r k else .ok st) with
    | error e =>
      simp only [hfirst] at h
      exact Except.noConfusion h
    | ok stm =>
      simp only [hfirst] at h
      obtain ⟨b2, hgb2, hb2, hs2, hacc2, hsup2, hp2, he2⟩ := credit_ok h
      by_cases hreg : (getBal st.accounts r).isSome
      · rw [if_pos hreg] at hfirst
        obtain ⟨b, hgb, hnb, hacc1, hsup1, hp1, he1⟩ := debit_ok hfirst
        obtain ⟨hnd, hsum⟩ := hwf
        refine ⟨?_, ?_⟩
        · rw [hacc2, keysOf_updBal, hacc1, keysOf_updBal]
          exact hnd
        · have e1 := sumBal_updBal (b - k) hgb
          have e2 := sumBal_updBal (b2 + k) hgb2
          rw [← hacc1] at e1
          rw [← hacc2] at e2
          omega
      · rw [if_neg hreg] at hfirst
        injection hfirst with hfirst
        subst hfirst
        obtain ⟨hnd, hsum⟩ := hwf
        exfalso
        omega

theorem wf_ft_resolve {st : State} {p : PendingTransfer} {o : CallOutcome}
    {st' : State} (h : ft_resolve_transfer st p o = .ok st') (hwf : WF st) :
    WF st' := by
  unfold ft_resolve_transfer at h
  split at h
  · cases hr : resolveRefund st p.sender p.receiver (refundOf p.amount o) with
    | error e =>
      simp only [hr] at h
      exact Except.noConfusion h
    | ok st1 =>
      simp only [hr] at h
      injection h with h
      subst h
      have hwf1 := wf_resolveRefund hr hwf
      exact ⟨hwf1.1, hwf1.2⟩
  · injection h with h
    subst h
    exact hwf

theorem wf_storage_deposit {st : State} {a : AccountId} {st' : State}
    (h : storage_deposit st a = .ok st') (hwf : WF st) : WF st' := by
  unfold storage_deposit at h
  split at h
  · injection h with h
    subst h
    exact hwf
  · rename_i hg
    injection h with h
    subst h
    obtain ⟨hnd, hsum⟩ := hwf
    refine ⟨?_, ?_⟩
    · show ((a, 0) :: st.accounts |> keysOf).Nodup
      simp only [keysOf, List.map_cons, List.nodup_cons]
      exact ⟨by simpa [keysOf] using getBal_none_not_mem hg,
             by simpa [keysOf] using hnd⟩
    · show sumBal ((a, 0) :: st.accounts) = st.total_supply
      simpa [sumBal] using hsum

theorem wf_storage_unregister {st : State} {a : AccountId} {f : Bool} {st' : State}
    (h : storage_unregister st a f = .ok st') (hwf : WF st) : WF st' := by
  unfold storage_unregister at h
  split at h
  · exact Except.noConfusion h
  · rename_i b hg
    obtain ⟨hnd, hsum⟩ := hwf
    split at h
    · rename_i hb0
      injection h with h
      subst h
      refine ⟨?_, ?_⟩
      · show (keysOf (eraseKey st.accounts a)).Nodup
        exact nodup_keysOf_eraseKey hnd
      · show sumBal (eraseKey st.accounts a) = st.total_supply
        have h1 := sumBal_eraseKey hnd hg
        omega
    · split at h
      · exact Except.noConfusion h
      · injection h with h
        subst h
        refine ⟨?_, ?_⟩
        · show (keysOf (eraseKey st.accounts a)).Nodup
          exact nodup_keysOf_eraseKey hnd
        · show sumBal (eraseKey st.accounts a) = st.total_supply - b
          have h1 := sumBal_eraseKey hnd hg
          have h2 := getBal_le_sumBal hg
          omega

theorem wf_new {owner : AccountId} {supply : Nat} {md : FungibleTokenMetadata}
    {st : State} (h : Contract.new owner supply md = .ok st) : WF st := by
  unfold Contract.new at h
  split at h
  · obtain ⟨b, hgb, hb, hsb, hacc, hsup, hp, he⟩ := mint_ok h
    simp [getBal] at hgb
    subst hgb
    refine ⟨?_, ?_⟩
    · rw [hacc, keysOf_updBal]
      simp [keysOf]
    · rw [hacc, hsup]
      simp [updBal, sumBal]
  · exact Except.noConfusion h

/-! Forward computation lemmas. -/

theorem debit_eq' (st : State) {a : AccountId} {n b : Nat}
    (h : getBal st.accounts a = some b) (hn : n ≤ b) :
    debit st a n = .ok { st with accounts := updBal st.accounts a (b - n) } :=
  debit_eq h hn

theorem credit_eq' (st : State) {a : AccountId} {n b : Nat}
    (h : getBal st.accounts a = some b) (h1 : b + n ≤ U128_MAX)
    (h2 : sumBal st.accounts + n ≤ st.total_supply) :
    credit st a n = .ok { st with accounts := updBal st.accounts a (b + n) } :=
  credit_eq h h1 h2

theorem ft_transfer_call_eq (st : State) {s r : AccountId} {n bs br : Nat}
    (m : String) (hs : getBal st.accounts s = some bs)
    (hr : getBal st.accounts r = some br) (hn : 0 < n) (hbs : n ≤ bs)
    (hne : s ≠ r) (hsum : sumBal st.accounts ≤ st.total_supply)
    (hmax : st.total_supply ≤ U128_MAX) :
    ft_transfer_call st s r n m =
      .ok { st with
            accounts := updBal (updBal st.accounts s (bs - n)) r (br + n)
            pending := st.pending ++ [⟨s, r, n, m⟩] } := by
  have hmid : getBal (updBal st.accounts s (bs - n)) r = some br := by
    rw [getBal_updBal_ne _ (Ne.symm hne)]
    exact hr
  have e1 := sumBal_updBal (bs - n) hs
  have hbrle := getBal_le_sumBal hmid
  have hbsle := getBal_le_sumBal hs
  have hbal : balance_of st s = bs := by
    simp [balance_of, hs]
  unfold ft_transfer_call
  rw [if_neg (show ¬ n = 0 by omega)]
  rw [hr]
  rw [if_neg (show ¬ (some br).isNone = true by simp)]
  rw [if_neg (show ¬ balance_of st s < n by omega)]
  simp only [debit_eq' st hs hbs]
  simp only [credit_eq' { st with accounts := updBal st.accounts s (bs - n) }
    hmid (show br + n ≤ U128_MAX by omega)
    (show sumBal (updBal st.accounts s (bs - n)) + n ≤ st.total_supply by omega)]

theorem resolveRefund_eq (st : State) {s r : AccountId} {k bs br : Nat}
    (hs : getBal st.accounts s = some bs) (hr : getBal st.accounts r = some br)
    (hk : k ≤ br) (hne : s ≠ r) (hsum : sumBal st.accounts ≤ st.total_supply)
    (hmax : st.total_supply ≤ U128_MAX) :
    resolveRefund st s r k =
      .ok { st with
            accounts := updBal (updBal st.accounts r (br - k)) s (bs + k) } := by
  by_cases hk0 : k = 0
  · subst hk0
    unfold resolveRefund
    rw [if_pos rfl]
    rw [Nat.sub_zero, Nat.add_zero, updBal_same hr, updBal_same hs]
  · have hmid : getBal (updBal st.accounts r (br - k)) s = some bs := by
      rw [getBal_updBal_ne _ hne]
      exact hs
    have e1 := sumBal_updBal (br - k) hr
    have hbsle := getBal_le_sumBal hmid
    have hbrle := getBal_le_sumBal hr
    unfold resolveRefund
    rw [if_neg hk0]
    rw [hr]
    simp only [Option.isSome_some, if_true]
    simp only [debit_eq' st hr hk]
    simp only [credit_eq' { st with accounts := updBal st.accounts r (br - k) }
      hmid (show bs + k ≤ U128_MAX by omega)
      (show sumBal (updBal st.accounts r (br - k)) + k ≤ st.total_supply by omega)]

theorem ft_resolve_eq {st : State} (p : PendingTransfer) (o : CallOutcome)
    {st1 : State} (hp : p ∈ st.pending)
    (h : resolveRefund st p.sender p.receiver (refundOf p.amount o) = .ok st1) :
    ft_resolve_transfer st p o = .ok { st1 with pending := st1.pending.erase p } := by
  unfold ft_resolve_transfer
  rw [if_pos hp]
  simp only [h]

theorem reachable_wf {st : State} (h : Reachable st) : WF st := by
  induction h with
  | init owner supply md st hnew => exact wf_new hnew
  | step st op st' hr happ ih =>
    cases op with
    | transfer s r n => exact wf_ft_transfer happ ih
    | transferCall s r n m => exact wf_ft_transfer_call happ ih
    | resolveCall p o => exact wf_ft_resolve happ ih
    | register a => exact wf_storage_deposit happ ih
    | unregister a f => exact wf_storage_unregister happ ih

/-! Claim theorems. -/

/-- C1: Conservation invariant: in every state reachable from initialization
by any sequence of public operations (transfers, call-notify transfers and
their resolutions, storage registration and unregistration), the sum of the
balances over all registered accounts equals the total supply. -/
theorem conservation_of_supply (st : State) (h : Reachable st) :
    sumBal st.accounts = st.total_supply :=
  (reachable_wf h).2

/-- Witness for C1 at the concrete state produced by initializing with owner
o and supply 500. -/
theorem conservation_of_supply_witness :
    sumBal initState.accounts = initState.total_supply :=
  conservation_of_supply initState
    (Reachable.init "o" 500 sampleMetadata initState (by decide))

/-- C2: for a sender with sufficient balance and a registered receiver
distinct from the sender, a successful ft_transfer decreases the sender
balance by exactly the amount, increases the receiver balance by exactly the
amount, and leaves the total supply unchanged.  In this embedding every
invocation is a single atomic unit: an invocation either returns the fully
updated state or an error with no state at all, so the debit and credit take
effect together or not at all. -/
theorem ft_transfer_moves_exactly_amount {st st' : State} {s r : AccountId}
    {n : Nat} (h : ft_transfer st s r n = .ok st') (hne : s ≠ r) :
    balance_of st' s + n = balance_of st s ∧
    balance_of st' r = balance_of st r + n ∧
    st'.total_supply = st.total_supply := by
  unfold ft_transfer at h
  split at h
  · exact Except.noConfusion h
  · split at h
    · exact Except.noConfusion h
    · split at h
      · exact Except.noConfusion h
      · cases hd : debit st s n with
        | error e =>
          simp only [hd] at h
          exact Except.noConfusion h
        | ok st1 =>
          simp only [hd] at h
          obtain ⟨b, hgb, hnb, hacc1, hsup1, hp1, he1⟩ := debit_ok hd
          obtain ⟨b2, hgb2, hb2, hs2, hacc2, hsup2, hp2, he2⟩ := credit_ok h
          have hrb : getBal st.accounts r = some b2 := by
            rw [← getBal_updBal_ne (b - n) (Ne.symm hne), ← hacc1]
            exact hgb2
          have hs' : getBal st'.accounts s = some (b - n) := by
            rw [hacc2, getBal_updBal_ne _ hne, hacc1]
            exact getBal_updBal_self _ hgb
          have hr' : getBal st'.accounts r = some (b2 + n) := by
            rw [hacc2]
            exact getBal_updBal_self _ hgb2
          refine ⟨?_, ?_, ?_⟩
          · simp only [balance_of, hs', hgb, Option.getD_some]
            omega
          · simp only [balance_of, hr', hrb, Option.getD_some]
          · rw [hsup2, hsup1]

/-- Witness for C2 on a concrete transfer of 3 from a to b. -/
theorem ft_transfer_moves_exactly_amount_witness :
    (ft_transfer c2State "a" "b" 3 = .ok c2StateAfter ∧
      ("a" : AccountId) ≠ "b") ∧
    (balance_of c2StateAfter "a" + 3 = balance_of c2State "a" ∧
     balance_of c2StateAfter "b" = balance_of c2State "b" + 3 ∧
     c2StateAfter.total_supply = c2State.total_supply) :=
  ⟨⟨by decide, by decide⟩,
    @ft_transfer_moves_exactly_amount c2State c2StateAfter "a" "b" 3
      (by decide) (by decide)⟩

/-- C3 counterexample: the claim that the unused amount is credited back to
the sender regardless of the receiver registration state at resolve time is
false.  Concrete reachable scenario: after the initiate phase of a
call-notify transfer of 300, the receiver moves the 300 provisional tokens
away and unregisters; resolving with declared used amount 120 then owes 180
back to the sender, but the resolve invocation aborts with Overflow and no
credit takes place. -/
theorem resolve_refund_receiver_unregistered_cex :
    setupCex = .ok cexState ∧
    getBal cexState.accounts "r" = none ∧
    (⟨"s", "r", 300, "m"⟩ : PendingTransfer) ∈ cexState.pending ∧
    refundOf 300 (CallOutcome.succeeded 120) = 180 ∧
    ft_resolve_transfer cexState ⟨"s", "r", 300, "m"⟩ (CallOutcome.succeeded 120)
      = .error .Overflow ∧
    balance_of cexState "s" = 1000000 := by
  refine ⟨by decide, by decide, by decide, by decide, by decide, by decide⟩

/-- C3 amended: in the resolve phase the declared used amount u is clamped to
the range from 0 to amount (values outside the range are treated as amount),
and the unused amount is credited back to the sender provided the receiver is
still registered and still holds the unused tokens at resolve time; in the
concrete scenario with total supply 1000000, sender holding 1000000,
registered receiver at 0, a call-notify transfer of 300 with declared used
amount 120 resolves to sender 999880, receiver 120, total supply 1000000. -/
theorem resolve_refund_clamped_and_credited (st : State) (p : PendingTransfer)
    (u bs br : Nat) (hp : p ∈ st.pending)
    (hs : getBal st.accounts p.sender = some bs)
    (hr : getBal st.accounts p.receiver = some br)
    (hbr : p.amount - min u p.amount ≤ br) (hne : p.sender ≠ p.receiver)
    (hsum : sumBal st.accounts = st.total_supply)
    (hmax : st.total_supply ≤ U128_MAX) :
    refundOf p.amount (CallOutcome.succeeded u) = p.amount - min u p.amount ∧
    ∃ st', ft_resolve_transfer st p (CallOutcome.succeeded u) = .ok st' ∧
      balance_of st' p.sender = bs + (p.amount - min u p.amount) ∧
      balance_of st' p.receiver + (p.amount - min u p.amount) = br ∧
      st'.total_supply = st.total_supply := by
  have hrr := resolveRefund_eq st hs hr hbr hne (le_of_eq hsum) hmax
  have hres := ft_resolve_eq p (CallOutcome.succeeded u) hp hrr
  have hks : getBal (updBal st.accounts p.receiver (br - (p.amount - min u p.amount)))
      p.sender = some bs := by
    rw [getBal_updBal_ne _ hne]
    exact hs
  have hfs : getBal (updBal (updBal st.accounts p.receiver
        (br - (p.amount - min u p.amount))) p.sender
        (bs + (p.amount - min u p.amount))) p.sender
      = some (bs + (p.amount - min u p.amount)) :=
    getBal_updBal_self _ hks
  have hkr : getBal (updBal st.accounts p.receiver (br - (p.amount - min u p.amount)))
      p.receiver = some (br - (p.amount - min u p.amount)) :=
    getBal_updBal_self _ hr
  have hfr : getBal (updBal (updBal st.accounts p.receiver
        (br - (p.amount - min u p.amount))) p.sender
        (bs + (p.amount - min u p.amount))) p.receiver
      = some (br - (p.amount - min u p.amount)) := by
    rw [getBal_updBal_ne _ (Ne.symm hne)]
    exact hkr
  refine ⟨rfl, _, hres, ?_, ?_, rfl⟩
  · simp only [balance_of, hfs, Option.getD_some]
  · simp only [balance_of, hfr, Option.getD_some]
    omega

/-- Witness for C3 on the concrete scenario of spec section 8. -/
theorem resolve_refund_clamped_and_credited_witness :
    (setupC3 = .ok preResolveState ∧ 999700 + (300 - min 120 300) = 999880 ∧
      300 - (300 - min 120 300) = 120) ∧
    (refundOf 300 (CallOutcome.succeeded 120) = 300 - min 120 300 ∧
     ∃ st', ft_resolve_transfer preResolveState ⟨"s", "r", 300, "m"⟩
         (CallOutcome.succeeded 120) = .ok st' ∧
       balance_of st' "s" = 999700 + (300 - min 120 300) ∧
       balance_of st' "r" + (300 - min 120 300) = 300 ∧
       st'.total_supply = preResolveState.total_supply) :=
  ⟨⟨by decide, by decide, by decide⟩,
    resolve_refund_clamped_and_credited preResolveState ⟨"s", "r", 300, "m"⟩
      120 999700 300 (by decide) (by decide) (by decide) (by decide) (by decide)
      (by decide) (by decide)⟩

/-- C4: if the external call dispatched by ft_transfer_call fails outright,
the resolve phase performs a full rollback: the entire amount is refunded to
the sender, so after resolution the sender and receiver balances equal their
values before the initiate phase and the total supply is unchanged. -/
theorem transfer_call_full_rollback (st : State) (s r : AccountId) (n : Nat)
    (m : String) (bs br : Nat)
    (hs : getBal st.accounts s = some bs) (hr : getBal st.accounts r = some br)
    (hn : 0 < n) (hbs : n ≤ bs) (hne : s ≠ r)
    (hsum : sumBal st.accounts = st.total_supply)
    (hmax : st.total_supply ≤ U128_MAX) :
    ∃ st1 st2, ft_transfer_call st s r n m = .ok st1 ∧
      ft_resolve_transfer st1 ⟨s, r, n, m⟩ CallOutcome.failed = .ok st2 ∧
      balance_of st2 s = balance_of st s ∧
      balance_of st2 r = balance_of st r ∧
      st2.total_supply = st.total_supply := by
  have hinit := ft_transfer_call_eq st m hs hr hn hbs hne (le_of_eq hsum) hmax
  have hmid : getBal (updBal st.accounts s (bs - n)) r = some br := by
    rw [getBal_updBal_ne _ (Ne.symm hne)]
    exact hr
  have hs1 : getBal (updBal (updBal st.accounts s (bs - n)) r (br + n)) s
      = some (bs - n) := by
    rw [getBal_updBal_ne _ hne]
    exact getBal_updBal_self _ hs
  have hr1 : getBal (updBal (updBal st.accounts s (bs - n)) r (br + n)) r
      = some (br + n) :=
    getBal_updBal_self _ hmid
  have e1 := sumBal_updBal (bs - n) hs
  have e2 := sumBal_updBal (br + n) hmid
  have hbsle := getBal_le_sumBal hs
  have hsum1 : sumBal (updBal (updBal st.accounts s (bs - n)) r (br + n))
      = st.total_supply := by omega
  have hrr := resolveRefund_eq
    { st with
      accounts := updBal (updBal st.accounts s (bs - n)) r (br + n)
      pending := st.pending ++ [⟨s, r, n, m⟩] }
    hs1 hr1 (show n ≤ br + n by omega) hne (le_of_eq hsum1) hmax
  have hres := ft_resolve_eq (⟨s, r, n, m⟩ : PendingTransfer) CallOutcome.failed
    (by simp) hrr
  have hks : getBal (updBal (updBal (updBal st.accounts s (bs - n)) r (br + n))
      r (br + n - n)) s = some (bs - n) := by
    rw [getBal_updBal_ne _ hne]
    exact hs1
  have hfs : getBal (updBal (updBal (updBal (updBal st.accounts s (bs - n))
        r (br + n)) r (br + n - n)) s (bs - n + n)) s = some (bs - n + n) :=
    getBal_updBal_self _ hks
  have hkr : getBal (updBal (updBal (updBal st.accounts s (bs - n)) r (br + n))
      r (br + n - n)) r = some (br + n - n) :=
    getBal_updBal_self _ hr1
  have hfr : getBal (updBal (updBal (updBal (updBal st.accounts s (bs - n))
        r (br + n)) r (br + n - n)) s (bs - n + n)) r = some (br + n - n) := by
    rw [getBal_updBal_ne _ (Ne.symm hne)]
    exact hkr
  refine ⟨_, _, hinit, hres, ?_, ?_, rfl⟩
  · simp only [balance_of, hfs, hs, Option.getD_some]
    omega
  · simp only [balance_of, hfr, hr, Option.getD_some]
    omega

/-- Witness for C4 on the concrete full-rollback scenario of spec section 8. -/
theorem transfer_call_full_rollback_witness :
    (c4Setup = .ok c4State ∧ balance_of c4State "s" = 1000000 ∧
      balance_of c4State "r" = 0) ∧
    (∃ st1 st2, ft_transfer_call c4State "s" "r" 300 "m" = .ok st1 ∧
      ft_resolve_transfer st1 ⟨"s", "r", 300, "m"⟩ CallOutcome.failed = .ok st2 ∧
      balance_of st2 "s" = balance_of c4State "s" ∧
      balance_of st2 "r" = balance_of c4State "r" ∧
      st2.total_supply = c4State.total_supply) :=
  ⟨⟨by decide, by decide, by decide⟩,
    transfer_call_full_rollback c4State "s" "r" 300 "m" 1000000 0 (by decide)
      (by decide) (by decide) (by decide) (by decide) (by decide) (by decide)⟩

/-- C5: forced unregistration of a registered account with positive balance
succeeds: afterwards the account is unregistered, the total supply has
decreased by exactly the burned balance, and the account-closed notification
carrying the final balance is emitted. -/
theorem storage_unregister_force_burns (st : State) (a : AccountId) (b : Nat)
    (h : getBal st.accounts a = some b) (hb : 0 < b)
    (hbs : b ≤ st.total_supply) :
    ∃ st', storage_unregister st a true = .ok st' ∧
      getBal st'.accounts a = none ∧
      st'.total_supply + b = st.total_supply ∧
      st'.events = st.events ++ [Event.accountClosed a b] := by
  refine ⟨Contract.on_account_closed
      { st with
        accounts := eraseKey st.accounts a
        total_supply := st.total_supply - b } a b, ?_, ?_, ?_, ?_⟩
  · unfold storage_unregister
    simp only [h]
    rw [if_neg (show ¬ b = 0 by omega), if_neg (show ¬ (true = false) by simp)]
  · exact getBal_eraseKey_self _ _
  · show st.total_supply - b + b = st.total_supply
    omega
  · rfl

/-- Witness for C5: forced unregistration of the owner holding the whole
supply of 500. -/
theorem storage_unregister_force_burns_witness :
    (getBal initState.accounts "o" = some 500 ∧ 0 < 500 ∧
      500 ≤ initState.total_supply) ∧
    (∃ st', storage_unregister initState "o" true = .ok st' ∧
      getBal st'.accounts "o" = none ∧
      st'.total_supply + 500 = initState.total_supply ∧
      st'.events = initState.events ++ [Event.accountClosed "o" 500]) :=
  ⟨⟨by decide, by decide, by decide⟩,
    storage_unregister_force_burns initState "o" 500 (by decide) (by decide)
      (by decide)⟩

/-- C6: storage_balance_bounds returns a minimum fixed at the byte cost of
one ledger entry (bytes times the price per byte) and no upper bound in the
default configuration. -/
theorem storage_balance_bounds_spec (entry_bytes price_per_byte : Nat) :
    (storage_balance_bounds entry_bytes price_per_byte).min
        = entry_bytes * price_per_byte ∧
    (storage_balance_bounds entry_bytes price_per_byte).max = none :=
  ⟨rfl, rfl⟩

/-- C7: after initialization with owner, supply 500 and a valid metadata
record succeeds, ft_metadata returns exactly the metadata passed in,
ft_total_supply is 500, and the owner balance is 500. -/
theorem init_round_trip (owner : AccountId) (md : FungibleTokenMetadata)
    (h : md.assert_valid = true) :
    ∃ st, Contract.new owner 500 md = .ok st ∧ ft_metadata st = md ∧
      ft_total_supply st = 500 ∧ ft_balance_of st owner = 500 := by
  refine ⟨{ accounts := [(owner, 500)], total_supply := 500, metadata := md,
            pending := [], events := [] }, ?_, rfl, rfl, ?_⟩
  · have hg : getBal [(owner, 0)] owner = some 0 := by simp [getBal]
    unfold Contract.new
    rw [if_pos h]
    unfold mint
    simp only [hg]
    rw [if_neg (by norm_num [U128_MAX])]
    simp [updBal]
  · simp [ft_balance_of, balance_of, getBal]

/-- Witness for C7 with the concrete sample metadata. -/
theorem init_round_trip_witness :
    sampleMetadata.assert_valid = true ∧
    (∃ st, Contract.new "o" 500 sampleMetadata = .ok st ∧
      ft_metadata st = sampleMetadata ∧ ft_total_supply st = 500 ∧
      ft_balance_of st "o" = 500) :=
  ⟨by decide, init_round_trip "o" sampleMetadata (by decide)⟩

/-- C8: a transfer of amount 0 fails with InvalidAmount; in this embedding an
erroring invocation returns no state, so every queryable piece of state is
exactly as before the call. -/
theorem ft_transfer_zero_invalid_amount (st : State) (s r : AccountId) :
    ft_transfer st s r 0 = .error .InvalidAmount := by
  unfold ft_transfer
  rw [if_pos rfl]

/-- C9: a transfer of positive amount to an unregistered receiver fails with
AccountNotRegistered and leaves no state change (the invocation returns an
error and no state); unregistered accounts report balance 0. -/
theorem ft_transfer_unregistered_receiver (st : State) (s r : AccountId)
    (n : Nat) (hr : getBal st.accounts r = none) (hn : n ≠ 0) :
    ft_transfer st s r n = .error .AccountNotRegistered ∧
    ft_balance_of st r = 0 := by
  constructor
  · unfold ft_transfer
    rw [if_neg hn, hr]
    rfl
  · simp [ft_balance_of, balance_of, hr]

/-- Witness for C9 on a concrete transfer to the unregistered account x. -/
theorem ft_transfer_unregistered_receiver_witness :
    (getBal c2State.accounts "x" = none ∧ (3 : Nat) ≠ 0) ∧
    (ft_transfer c2State "a" "x" 3 = .error .AccountNotRegistered ∧
      ft_balance_of c2State "x" = 0) :=
  ⟨⟨by decide, by decide⟩,
    ft_transfer_unregistered_receiver c2State "a" "x" 3 (by decide) (by decide)⟩

end ChaveroCoin
